import Mathlib

/-!
# Verification of the VibeBites order/coupon core

A shallow embedding, in Lean 4, of the order lifecycle and coupon/discount
engine of the VibeBites e-commerce backend:

* `src/models/Coupon.js` — `isValid`, `canBeApplied`, `calculateDiscount`;
* `src/models/Order.js` — `calculateTotals`, the order-number pre-save hook,
  `requestCancellation`, `processCancelRequest`;
* `src/models/Product.js` — `isInStock`, `updateStock`;
* the `POST /api/orders` and `POST /api/orders/:id/cancel` route handlers.

JavaScript numbers are modelled as rationals (`ℚ`); dates as integer
timestamps (`ℤ`); Mongo ObjectIds as strings.  Methods that `throw` are
modelled as `Except String`-valued functions.  Each definition is a direct
transcription of the corresponding JavaScript function.
-/

namespace VibeBites

/-! ## Coupon model (`src/models/Coupon.js`) -/

/-- The `type` enum of the coupon schema: `['percentage', 'fixed']`. -/
inductive CouponType where
  | percentage
  | fixed
deriving DecidableEq, Repr

/-- A line item as consumed by `calculateDiscount` (`price`, `quantity`,
`category` are the only fields it reads). -/
structure Item where
  price : ℚ
  quantity : ℚ
  category : String
deriving DecidableEq, Repr

/-- The coupon record: the fields of `couponSchema` read by `isValid`,
`canBeApplied` and `calculateDiscount`.  `maxDiscount = -1` means uncapped,
`usageLimit = -1` means unlimited.  Validity bounds are integer timestamps. -/
structure Coupon where
  code : String
  discount : ℚ
  type : CouponType
  categories : List String
  minOrderAmount : ℚ
  maxDiscount : ℚ
  usageLimit : ℤ
  usedCount : ℤ
  validFrom : ℤ
  validUntil : ℤ
  isActive : Bool
  isFirstTimeOnly : Bool
  applicableUsers : List String
  excludedUsers : List String
deriving DecidableEq, Repr

/-- `couponSchema.methods.isValid` (Coupon.js:89-102): active, inside the
validity window, and under the usage limit (unless the limit is `-1`). -/
def Coupon.isValid (c : Coupon) (now : ℤ) : Bool :=
  if c.isActive = false then false
  else if now < c.validFrom ∨ now > c.validUntil then false
  else if c.usageLimit ≠ -1 ∧ c.usedCount ≥ c.usageLimit then false
  else true

/-- `couponSchema.methods.canBeApplied` (Coupon.js:105-122).  `userId = none`
models the JavaScript default `userId = null`; both user-list checks are
guarded by the truthiness of `userId`, exactly as in the source. -/
def Coupon.canBeApplied (c : Coupon) (now : ℤ) (orderAmount : ℚ)
    (userId : Option String) (isFirstTime : Bool) : Bool :=
  if c.isValid now = false then false
  else if orderAmount < c.minOrderAmount then false
  else if c.isFirstTimeOnly = true ∧ isFirstTime = false then false
  else if (match userId with
           | some u => c.excludedUsers.contains u
           | none => false) then false
  else if c.applicableUsers.length > 0 &&
          (match userId with
           | some u => !(c.applicableUsers.contains u)
           | none => false) then false
  else true

/-- `couponSchema.methods.calculateDiscount` (Coupon.js:125-146): restrict the
base to matching categories when the coupon is category-specific and items are
given, apply the percentage/fixed rule, cap at `maxDiscount` unless `-1`, and
clamp at the applicable amount. -/
def Coupon.calculateDiscount (c : Coupon) (orderAmount : ℚ)
    (items : List Item) : ℚ :=
  let applicableAmount :=
    if c.categories.length > 0 ∧ items.length > 0 then
      ((items.filter (fun i => c.categories.contains i.category)).map
        (fun i => i.price * i.quantity)).sum
    else orderAmount
  let discountAmount :=
    match c.type with
    | .percentage => (applicableAmount * c.discount) / 100
    | .fixed => c.discount
  let discountAmount :=
    if c.maxDiscount ≠ -1 then min discountAmount c.maxDiscount
    else discountAmount
  min discountAmount applicableAmount

/-- Modelled from the spec: the four-step `computeDiscount` contract of §4.1
(base restricted to matching categories when `coupon.categories` is non-empty
and items are supplied; `raw` by percentage/fixed rule; capped at
`maxDiscount` when it is not `-1`; final discount `min(raw, base)`).  Stated
from the spec's words, to be compared with `Coupon.calculateDiscount`. -/
def computeDiscountSpec (c : Coupon) (orderAmount : ℚ)
    (items : List Item) : ℚ :=
  let base :=
    if c.categories ≠ [] ∧ items ≠ [] then
      ((items.filter (fun i => c.categories.contains i.category)).map
        (fun i => i.price * i.quantity)).sum
    else orderAmount
  let raw :=
    match c.type with
    | .percentage => base * c.discount / 100
    | .fixed => c.discount
  let capped := if c.maxDiscount ≠ -1 then min raw c.maxDiscount else raw
  min capped base

/-! ## Order model (`src/models/Order.js`) -/

/-- The `orderStatus` enum of the order schema. -/
inductive OrderStatus where
  | pending
  | confirmed
  | processing
  | shipped
  | delivered
  | cancelled
  | returned
deriving DecidableEq, Repr

/-- The `paymentStatus` enum of the order schema. -/
inductive PaymentStatus where
  | pending
  | processing
  | completed
  | failed
  | refunded
deriving DecidableEq, Repr

/-- The `status` enum of the cancellation/return sub-records. -/
inductive ReqStatus where
  | pending
  | approved
  | rejected
deriving DecidableEq, Repr

/-- The `appliedCoupon` snapshot embedded in an order. -/
structure AppliedCoupon where
  code : String
  discount : ℚ
  type : CouponType
deriving DecidableEq, Repr

/-- The `cancelRequest` sub-record embedded in an order. -/
structure CancelRequest where
  requestedAt : ℤ
  reason : String
  description : String
  status : ReqStatus
  processedAt : Option ℤ
  processedBy : Option String
deriving DecidableEq, Repr

/-- A line item of an order: the snapshot fields written at checkout that the
verified operations read. -/
structure OrderItem where
  name : String
  size : String
  price : ℚ
  quantity : ℚ
  category : String
deriving DecidableEq, Repr

/-- The order record: the fields of `orderSchema` read or written by the
verified methods.  `orderNumber = ""` models an unassigned (falsy) order
number. -/
structure Order where
  items : List OrderItem
  subtotal : ℚ
  shippingCost : ℚ
  discount : ℚ
  total : ℚ
  appliedCoupon : Option AppliedCoupon
  orderStatus : OrderStatus
  paymentStatus : PaymentStatus
  cancelRequest : Option CancelRequest
  orderNumber : String
  notes : String
deriving DecidableEq, Repr

/-- The process-wide shipping configuration (`src/config/config.js`):
`freeShippingThreshold` and `shippingFee`. -/
structure ShippingConfig where
  freeShippingThreshold : ℚ
  shippingFee : ℚ
deriving DecidableEq, Repr

/-- `orderSchema.methods.calculateTotals` (Order.js:257-283): subtotal is the
sum of `price * quantity` over the items; shipping is free at or above the
threshold; the coupon discount (guarded by the truthiness of
`appliedCoupon && appliedCoupon.code`) is clamped at the subtotal; the total
is `subtotal + shippingCost - discount`. -/
def Order.calculateTotals (o : Order) (cfg : ShippingConfig) : Order :=
  let subtotal := (o.items.map (fun i => i.price * i.quantity)).sum
  let shippingCost :=
    if subtotal ≥ cfg.freeShippingThreshold then 0 else cfg.shippingFee
  let discountAmount :=
    match o.appliedCoupon with
    | some ac =>
        if ac.code ≠ "" then
          match ac.type with
          | .percentage => (subtotal * ac.discount) / 100
          | .fixed => ac.discount
        else 0
    | none => 0
  let discount := min discountAmount subtotal
  { o with
      subtotal := subtotal
      shippingCost := shippingCost
      discount := discount
      total := subtotal + shippingCost - discount }

/-- The totals computed inline by the `POST /api/orders` checkout handler
(routes, lines 109-125): shipping by the same threshold rule, the coupon
discount clamped at the subtotal only when a coupon is supplied, and
`total = subtotal + shippingCost - discount`.  Returns
`(subtotal, shippingCost, discount, total)` for a given subtotal. -/
def checkoutTotals (subtotal : ℚ) (appliedCoupon : Option AppliedCoupon)
    (cfg : ShippingConfig) : ℚ × ℚ × ℚ × ℚ :=
  let shippingCost :=
    if subtotal ≥ cfg.freeShippingThreshold then 0 else cfg.shippingFee
  let discount :=
    match appliedCoupon with
    | some ac =>
        min (match ac.type with
             | .percentage => (subtotal * ac.discount) / 100
             | .fixed => ac.discount)
          subtotal
    | none => 0
  (subtotal, shippingCost, discount, subtotal + shippingCost - discount)

/-- The subtotal accumulated by the checkout handler's item loop
(routes, lines 70-107): the sum of the snapshotted `price * quantity`. -/
def checkoutSubtotal (items : List OrderItem) : ℚ :=
  (items.map (fun i => i.price * i.quantity)).sum

/-- `orderSchema.methods.requestCancellation` (Order.js:317-331): throws
unless the status is `pending`, `confirmed` or `processing`; otherwise
records a fresh `pending` cancellation sub-record. -/
def Order.requestCancellation (o : Order) (now : ℤ) (reason : String)
    (description : String) : Except String Order :=
  if o.orderStatus = .pending ∨ o.orderStatus = .confirmed ∨
     o.orderStatus = .processing then
    .ok { o with
            cancelRequest := some
              { requestedAt := now, reason := reason,
                description := description, status := .pending,
                processedAt := none, processedBy := none } }
  else
    .error "Order cannot be cancelled at this stage"

/-- `orderSchema.methods.processCancelRequest` (Order.js:351-370): throws
unless a `pending` cancellation sub-record exists; marks it
`approved`/`rejected` with processing metadata; on approval forces the order
to `cancelled`/`refunded`; overwrites the notes when non-empty. -/
def Order.processCancelRequest (o : Order) (now : ℤ) (approved : Bool)
    (processedBy : String) (notes : String) : Except String Order :=
  match o.cancelRequest with
  | none => .error "No pending cancellation request found"
  | some cr =>
      if cr.status ≠ .pending then
        .error "No pending cancellation request found"
      else
        let cr' := { cr with
                       status := if approved then .approved else .rejected,
                       processedAt := some now,
                       processedBy := some processedBy }
        let o' := { o with cancelRequest := some cr' }
        let o' := if approved then
                    { o' with orderStatus := .cancelled,
                              paymentStatus := .refunded }
                  else o'
        .ok (if notes ≠ "" then { o' with notes := notes } else o')

/-- The `POST /api/orders/:id/cancel` customer handler (routes, lines
360-371): once the order is found it unconditionally sets the status to
`cancelled` and writes an already-`approved` cancellation sub-record, with no
guard on the current status and no change to the payment status. -/
def cancelOrderHandler (o : Order) (now : ℤ) (userId : String)
    (reason : String) (description : String) : Order :=
  { o with
      orderStatus := .cancelled
      cancelRequest := some
        { requestedAt := now, reason := reason, description := description,
          status := .approved, processedAt := some now,
          processedBy := some userId } }

/-! ## Product model (`src/models/Product.js`) -/

/-- One entry of a product's `sizes` array. -/
structure SizeEntry where
  size : String
  price : ℚ
  stock : ℚ
deriving DecidableEq, Repr

/-- The product record: the fields read by `isInStock`, `updateStock` and the
checkout handler. -/
structure Product where
  name : String
  category : String
  image : String
  sizes : List SizeEntry
  inStock : Bool
deriving DecidableEq, Repr

/-- `productSchema.methods.isInStock` (Product.js:182-185): the first size
entry matching the label exists and has positive stock. -/
def Product.isInStock (p : Product) (label : String) : Bool :=
  match p.sizes.find? (fun s => s.size = label) with
  | some s => s.stock > 0
  | none => false

/-- The mutation of `sizes` performed by `updateStock`: the first entry whose
label matches has its stock reduced by `quantity`, floored at 0; `none` when
no entry matches. -/
def updateSizes (label : String) (quantity : ℚ) :
    List SizeEntry → Option (List SizeEntry)
  | [] => none
  | s :: rest =>
      if s.size = label then
        some ({ s with stock := max 0 (s.stock - quantity) } :: rest)
      else
        (updateSizes label quantity rest).map (s :: ·)

/-- `productSchema.methods.updateStock` (Product.js:188-196): decrement the
matching size's stock (saturating at 0), recompute the aggregate `inStock`
flag over the updated sizes, and report whether a matching size was found. -/
def Product.updateStock (p : Product) (label : String) (quantity : ℚ) :
    Bool × Product :=
  match updateSizes label quantity p.sizes with
  | none => (false, p)
  | some sizes' =>
      (true, { p with sizes := sizes',
                      inStock := sizes'.any (fun s => s.stock > 0) })

/-- The per-item step of the `POST /api/orders` checkout handler (routes,
lines 86-107): reject when `isInStock` fails, otherwise snapshot the item at
the size's current price with the full requested quantity. -/
def processCheckoutItem (p : Product) (label : String) (qty : ℚ) :
    Option OrderItem :=
  if p.isInStock label then
    match p.sizes.find? (fun s => s.size = label) with
    | some s =>
        some { name := p.name, size := label, price := s.price,
               quantity := qty, category := p.category }
    | none => none
  else none

/-! ## Order numbering (`src/models/Order.js`, pre-save hook) -/

/-- Decimal digits of `n`, little-endian, by repeated division; the extra
fuel argument makes the recursion structural (`fuel ≥ n` suffices). -/
def decDigitsRev : Nat → Nat → List Nat
  | 0, _ => []
  | fuel + 1, n => if n = 0 then [] else n % 10 :: decDigitsRev fuel (n / 10)

/-- The decimal rendering of a natural number: the semantics of the
JavaScript `String(n)` conversion used by the template literal of the
pre-save hook. -/
def decStr (n : Nat) : String :=
  if n = 0 then "0"
  else ⟨(decDigitsRev n n).reverse.map (fun d => Char.ofNat (48 + d))⟩

/-- JavaScript `String.prototype.padStart(w, c)`: prepend copies of `c` up to
length `w`; strings already at least `w` long are returned unchanged. -/
def padStart (s : String) (w : Nat) (c : Char) : String :=
  if w ≤ s.length then s else ⟨List.replicate (w - s.length) c ++ s.data⟩

/-- The numeric value denoted by a list of decimal digit characters. -/
def charsVal (cs : List Char) : Nat :=
  cs.foldl (fun a c => 10 * a + (c.toNat - 48)) 0

/-- The numeric value denoted by a string of decimal digit characters. -/
def strVal (s : String) : Nat := charsVal s.data

/-- The order-number string built by the pre-save hook (Order.js:238):
`` `VB${year}${month}${day}${String(count + 1).padStart(4, '0')}` `` with the
month and day already zero-padded to two characters (Order.js:227-228). -/
def genOrderNumber (year month day count : Nat) : String :=
  "VB" ++ decStr year ++ padStart (decStr month) 2 '0' ++
    padStart (decStr day) 2 '0' ++ padStart (decStr (count + 1)) 4 '0'

/-- The pre-save hook (Order.js:223-241): assigns a generated order number
only when `this.orderNumber` is falsy (modelled as the empty string); an
already-assigned number is never overwritten. -/
def preSaveOrderNumber (o : Order) (year month day count : Nat) : Order :=
  if o.orderNumber = "" then
    { o with orderNumber := genOrderNumber year month day count }
  else o

/-! ## Sample records used in concrete checks -/

/-- A fixed-amount coupon with the `-1` (uncapped) `maxDiscount` sentinel. -/
def couponUncapped : Coupon :=
  { code := "FLAT10", discount := 10, type := .fixed, categories := [],
    minOrderAmount := 0, maxDiscount := -1, usageLimit := -1, usedCount := 0,
    validFrom := 0, validUntil := 1000, isActive := true,
    isFirstTimeOnly := false, applicableUsers := [], excludedUsers := [] }

/-- An otherwise unrestricted percentage coupon with a non-empty user
allow-list. -/
def couponAllowList : Coupon :=
  { code := "VIP10", discount := 10, type := .percentage, categories := [],
    minOrderAmount := 0, maxDiscount := -1, usageLimit := -1, usedCount := 0,
    validFrom := 0, validUntil := 1000, isActive := true,
    isFirstTimeOnly := false, applicableUsers := ["u1"], excludedUsers := [] }

/-- A freshly created order in the initial `pending`/`pending` state. -/
def orderPending : Order :=
  { items := [{ name := "Peri Peri Makhana", size := "100g", price := 99,
                quantity := 2, category := "Makhana" }],
    subtotal := 198, shippingCost := 49, discount := 0, total := 247,
    appliedCoupon := none, orderStatus := .pending, paymentStatus := .pending,
    cancelRequest := none, orderNumber := "VB202504170007", notes := "" }

/-- A shipped order (past the stage at which cancellation is allowed). -/
def orderShipped : Order :=
  { orderPending with orderStatus := .shipped }

/-- A product with a single size entry holding one unit of stock. -/
def productOneLeft : Product :=
  { name := "Peri Peri Makhana", category := "Makhana", image := "makhana.jpg",
    sizes := [{ size := "100g", price := 99, stock := 1 }], inStock := true }

/-! ## Theorems -/

/-- **C2.** For every coupon, order amount and item list, the implemented
`calculateDiscount` coincides with the spec's four-step `computeDiscount`
contract (restricted base for category coupons, percentage/fixed raw
discount, cap at `maxDiscount` unless `-1`, clamp at the base). -/
theorem calculateDiscount_eq_spec (c : Coupon) (orderAmount : ℚ)
    (items : List Item) :
    c.calculateDiscount orderAmount items =
      computeDiscountSpec c orderAmount items := by
  unfold Coupon.calculateDiscount computeDiscountSpec
  simp only [gt_iff_lt, List.length_pos]

/-- **C3, as stated, is false at `maxDiscount = -1`.**  The uncapped sentinel
makes `min(maxDiscount, discountableBase) = -1`, while the computed discount
of the sample coupon (`fixed`, magnitude `10`, order amount `100`, no items,
so the discountable base is `100`) is `10 ≥ 0`. -/
theorem calculateDiscount_min_bound_counterexample :
    0 ≤ couponUncapped.discount ∧
    couponUncapped.calculateDiscount 100 [] = 10 ∧
    ¬ (couponUncapped.calculateDiscount 100 [] ≤
        min couponUncapped.maxDiscount 100) := by
  refine ⟨by norm_num [couponUncapped], ?_, ?_⟩ <;>
    norm_num [Coupon.calculateDiscount, couponUncapped, min_def]

/-- The discountable base of a coupon for a given order amount and item list
(spec §GLOSSARY): the matching-category portion when the coupon is
category-specific and items are supplied, the whole amount otherwise. -/
def discountableBase (c : Coupon) (orderAmount : ℚ) (items : List Item) : ℚ :=
  if c.categories.length > 0 ∧ items.length > 0 then
    ((items.filter (fun i => c.categories.contains i.category)).map
      (fun i => i.price * i.quantity)).sum
  else orderAmount

/-- **C3, amended.**  For nonnegative discount magnitude, order amount, item
prices and quantities: when `maxDiscount` is the `-1` sentinel the output
lies in `[0, discountableBase]`; when `maxDiscount ≥ 0` (the only other
values the schema intends) the output is nonnegative and bounded by
`min(maxDiscount, discountableBase)`. -/
theorem calculateDiscount_bounds (c : Coupon) (orderAmount : ℚ)
    (items : List Item) (hd : 0 ≤ c.discount) (ha : 0 ≤ orderAmount)
    (hi : ∀ i ∈ items, 0 ≤ i.price ∧ 0 ≤ i.quantity) :
    (c.maxDiscount = -1 →
      0 ≤ c.calculateDiscount orderAmount items ∧
      c.calculateDiscount orderAmount items ≤
        discountableBase c orderAmount items) ∧
    (0 ≤ c.maxDiscount →
      0 ≤ c.calculateDiscount orderAmount items ∧
      c.calculateDiscount orderAmount items ≤
        min c.maxDiscount (discountableBase c orderAmount items)) := by
  have hbase : 0 ≤ discountableBase c orderAmount items := by
    unfold discountableBase
    split
    · refine List.sum_nonneg ?_
      intro x hx
      simp only [List.mem_map, List.mem_filter] at hx
      obtain ⟨i, ⟨hil, _⟩, rfl⟩ := hx
      exact mul_nonneg (hi i hil).1 (hi i hil).2
    · exact ha
  have hraw : 0 ≤ (match c.type with
      | CouponType.percentage =>
          (discountableBase c orderAmount items * c.discount) / 100
      | CouponType.fixed => c.discount) := by
    cases c.type
    · exact div_nonneg (mul_nonneg hbase hd) (by norm_num)
    · exact hd
  have hdef : c.calculateDiscount orderAmount items =
      min (if c.maxDiscount ≠ -1 then
             min (match c.type with
                  | CouponType.percentage =>
                      (discountableBase c orderAmount items * c.discount) / 100
                  | CouponType.fixed => c.discount) c.maxDiscount
           else
             match c.type with
             | CouponType.percentage =>
                 (discountableBase c orderAmount items * c.discount) / 100
             | CouponType.fixed => c.discount)
        (discountableBase c orderAmount items) := rfl
  constructor
  · intro hm
    rw [hdef, if_neg (by simp [hm])]
    exact ⟨le_min hraw hbase, min_le_right _ _⟩
  · intro hm
    have hne : c.maxDiscount ≠ -1 := by
      intro h; rw [h] at hm; norm_num at hm
    rw [hdef, if_pos hne]
    refine ⟨le_min (le_min hraw hm) hbase, ?_⟩
    exact min_le_min (min_le_right _ _) le_rfl

/-- **C9.** The customer cancellation endpoint handler sets the order status
directly to `cancelled` for every order — with no guard on the current
status, unlike `requestCancellation` — writes a cancellation sub-record that
is immediately `approved`, and leaves the payment status exactly as it was
(in particular it never sets it to `refunded`). -/
theorem cancelOrderHandler_spec (o : Order) (now : ℤ)
    (userId reason description : String) :
    (cancelOrderHandler o now userId reason description).orderStatus =
      .cancelled ∧
    (cancelOrderHandler o now userId reason description).cancelRequest =
      some { requestedAt := now, reason := reason,
             description := description, status := .approved,
             processedAt := some now, processedBy := some userId } ∧
    (cancelOrderHandler o now userId reason description).paymentStatus =
      o.paymentStatus :=
  ⟨rfl, rfl, rfl⟩

/-- `isValid` decides exactly the spec's `isRedeemable` predicate: active,
inside the validity window, and under the usage limit unless unlimited. -/
lemma isValid_eq_true_iff (c : Coupon) (now : ℤ) :
    c.isValid now = true ↔
      (c.isActive = true ∧ c.validFrom ≤ now ∧ now ≤ c.validUntil ∧
       (c.usageLimit = -1 ∨ c.usedCount < c.usageLimit)) := by
  unfold Coupon.isValid
  split_ifs with h1 h2 h3 <;> simp_all <;> omega

/-- **C4, as stated, is false when the allow-list is non-empty and no user is
supplied.**  `couponAllowList` has `applicableUsers = ["u1"]`; at order amount
`300` with `userId = none` the implementation returns `true`, yet the claimed
right-hand side requires the allow-list to be empty or the user to belong to
it. -/
theorem canBeApplied_allowlist_counterexample :
    ¬ (couponAllowList.canBeApplied 5 300 none false = true ↔
        ((couponAllowList.isActive = true ∧ couponAllowList.validFrom ≤ 5 ∧
          (5 : ℤ) ≤ couponAllowList.validUntil ∧
          (couponAllowList.usageLimit = -1 ∨
           couponAllowList.usedCount < couponAllowList.usageLimit)) ∧
         couponAllowList.minOrderAmount ≤ 300 ∧
         (couponAllowList.isFirstTimeOnly = false ∨ false = true) ∧
         (∀ u, (none : Option String) = some u →
            u ∉ couponAllowList.excludedUsers) ∧
         (couponAllowList.applicableUsers = [] ∨
          ∃ u, (none : Option String) = some u ∧
            u ∈ couponAllowList.applicableUsers))) := by
  intro h
  have happ : couponAllowList.canBeApplied 5 300 none false = true := by
    norm_num [Coupon.canBeApplied, Coupon.isValid, couponAllowList]
  rcases (h.mp happ).2.2.2.2 with hempty | ⟨u, hu, _⟩
  · simp [couponAllowList] at hempty
  · exact Option.noConfusion hu

/-- **C4, amended.**  `canBeApplied` returns true iff the coupon is
redeemable, the order meets the minimum amount, the first-time restriction is
met, the user is not excluded, and the allow-list is empty **or no user id is
supplied** or the user belongs to it: both user-list checks are skipped for
an absent user id. -/
theorem canBeApplied_iff (c : Coupon) (now : ℤ) (orderAmount : ℚ)
    (userId : Option String) (isFirstTime : Bool) :
    c.canBeApplied now orderAmount userId isFirstTime = true ↔
      ((c.isActive = true ∧ c.validFrom ≤ now ∧ now ≤ c.validUntil ∧
        (c.usageLimit = -1 ∨ c.usedCount < c.usageLimit)) ∧
       c.minOrderAmount ≤ orderAmount ∧
       (c.isFirstTimeOnly = false ∨ isFirstTime = true) ∧
       (∀ u, userId = some u → u ∉ c.excludedUsers) ∧
       (c.applicableUsers = [] ∨ userId = none ∨
        ∃ u, userId = some u ∧ u ∈ c.applicableUsers)) := by
  rw [← isValid_eq_true_iff]
  cases userId with
  | none =>
      unfold Coupon.canBeApplied
      split_ifs with h1 h2 h3 <;> simp_all
      by_cases hb : c.isFirstTimeOnly = true
      · exact Or.inr (h3 hb)
      · exact Or.inl (by simpa using hb)
  | some u =>
      unfold Coupon.canBeApplied
      split_ifs with h1 h2 h3 h4 h5 <;> simp_all
      · intro _
        exact List.length_pos.mp h5.1
      · constructor
        · by_cases hb : c.isFirstTimeOnly = true
          · exact Or.inr (h3 hb)
          · exact Or.inl (by simpa using hb)
        · rcases Nat.eq_zero_or_pos c.applicableUsers.length with hz | hp
          · exact Or.inl (List.length_eq_zero.mp hz)
          · exact Or.inr (h5 hp)

/-- **C7.** `requestCancellation` succeeds exactly when the order status is
`pending`, `confirmed` or `processing`, recording a `pending` cancellation
sub-record with the given reason and description and touching nothing else
(in particular neither `orderStatus` nor `paymentStatus`); for every other
status it raises the domain error and the order is left unchanged. -/
theorem requestCancellation_spec (o : Order) (now : ℤ)
    (reason description : String) :
    (o.orderStatus = .pending ∨ o.orderStatus = .confirmed ∨
       o.orderStatus = .processing →
      o.requestCancellation now reason description =
        .ok { o with cancelRequest := some ⟨now, reason, description, .pending, none, none⟩ }) ∧
    (¬ (o.orderStatus = .pending ∨ o.orderStatus = .confirmed ∨
          o.orderStatus = .processing) →
      o.requestCancellation now reason description =
        .error "Order cannot be cancelled at this stage") := by
  unfold Order.requestCancellation
  exact ⟨fun h => if_pos h, fun h => if_neg h⟩

/-- **C8.** `processCancelRequest` raises the domain error exactly when no
cancellation sub-record exists or its status is not `pending`; a first call
on a `pending` sub-record marks it `approved`/`rejected` with processing
metadata, forces `cancelled`/`refunded` on approval, leaves both statuses
unchanged on rejection — and any second call against the processed order
fails with the same error, never silently overwriting. -/
theorem processCancelRequest_spec (o : Order) (now : ℤ) (approved : Bool)
    (processedBy notes : String) :
    ((o.cancelRequest = none ∨
        ∃ cr, o.cancelRequest = some cr ∧ cr.status ≠ .pending) →
      o.processCancelRequest now approved processedBy notes =
        .error "No pending cancellation request found") ∧
    (∀ cr, o.cancelRequest = some cr → cr.status = .pending →
      ∃ o', o.processCancelRequest now approved processedBy notes = .ok o' ∧
        o'.cancelRequest = some
          { cr with status := if approved then .approved else .rejected,
                    processedAt := some now,
                    processedBy := some processedBy } ∧
        (approved = true →
          o'.orderStatus = .cancelled ∧ o'.paymentStatus = .refunded) ∧
        (approved = false →
          o'.orderStatus = o.orderStatus ∧
          o'.paymentStatus = o.paymentStatus) ∧
        ∀ (now' : ℤ) (approved' : Bool) (processedBy' notes' : String),
          o'.processCancelRequest now' approved' processedBy' notes' =
            .error "No pending cancellation request found") := by
  constructor
  · rintro (hnone | ⟨cr, hsome, hst⟩)
    · simp only [Order.processCancelRequest, hnone]
    · simp only [Order.processCancelRequest, hsome, if_pos hst]
  · intro cr hsome hst
    simp only [Order.processCancelRequest, hsome, hst, ne_eq, not_true_eq_false,
      if_false]
    cases approved with
    | true =>
        by_cases hn : notes = ""
        · simp only [hn, not_true_eq_false, if_false, if_true, ite_true,
            ite_false]
          refine ⟨_, rfl, by simp [hst], fun _ => ⟨rfl, rfl⟩,
            fun h => Bool.noConfusion h, ?_⟩
          intro now' approved' processedBy' notes'
          simp [Order.processCancelRequest]
        · simp only [hn, not_false_eq_true, if_true, ite_true]
          refine ⟨_, rfl, by simp [hst], fun _ => ⟨rfl, rfl⟩,
            fun h => Bool.noConfusion h, ?_⟩
          intro now' approved' processedBy' notes'
          simp [Order.processCancelRequest]
    | false =>
        by_cases hn : notes = ""
        · simp only [hn, not_true_eq_false, if_false, ite_false]
          refine ⟨_, rfl, by simp [hst], fun h => Bool.noConfusion h,
            fun _ => ⟨rfl, rfl⟩, ?_⟩
          intro now' approved' processedBy' notes'
          simp [Order.processCancelRequest]
        · simp only [hn, not_false_eq_true, if_true, ite_true, ite_false]
          refine ⟨_, rfl, by simp [hst], fun h => Bool.noConfusion h,
            fun _ => ⟨rfl, rfl⟩, ?_⟩
          intro now' approved' processedBy' notes'
          simp [Order.processCancelRequest]

/-- The coupon amount of an order's `appliedCoupon` snapshot before clamping
(Order.js:265-272), nonnegative whenever the subtotal and the snapshot's
discount magnitude are. -/
lemma snapshotAmount_nonneg (S : ℚ) (hS : 0 ≤ S)
    (coupon : Option AppliedCoupon)
    (hc : ∀ ac ∈ coupon, 0 ≤ ac.discount) :
    0 ≤ (match coupon with
         | some ac =>
             if ac.code ≠ "" then
               match ac.type with
               | CouponType.percentage => (S * ac.discount) / 100
               | CouponType.fixed => ac.discount
             else 0
         | none => 0) := by
  rcases coupon with _ | ac
  · simp
  · have hd : 0 ≤ ac.discount := hc ac (by simp)
    simp only
    split_ifs
    · cases htype : ac.type with
      | percentage => exact div_nonneg (mul_nonneg hS hd) (by norm_num)
      | fixed => exact hd
    · exact le_rfl

/-- **C1.** Both total computations — `calculateTotals` on an order and the
inline arithmetic of the checkout handler — satisfy the order invariant:
`total = subtotal + shippingCost − discount`, the discount is clamped into
`[0, subtotal]` (given the schema's nonnegative prices/quantities and a
nonnegative coupon magnitude), shipping follows the free-shipping threshold,
and the discount is `0` when no coupon is applied. -/
theorem totals_invariant :
    (∀ (o : Order) (cfg : ShippingConfig),
      (∀ i ∈ o.items, 0 ≤ i.price ∧ 0 ≤ i.quantity) →
      (∀ ac ∈ o.appliedCoupon, 0 ≤ ac.discount) →
      (o.calculateTotals cfg).total =
          (o.calculateTotals cfg).subtotal +
            (o.calculateTotals cfg).shippingCost -
            (o.calculateTotals cfg).discount ∧
        0 ≤ (o.calculateTotals cfg).discount ∧
        (o.calculateTotals cfg).discount ≤ (o.calculateTotals cfg).subtotal ∧
        (o.appliedCoupon = none → (o.calculateTotals cfg).discount = 0)) ∧
    (∀ (items : List OrderItem) (coupon : Option AppliedCoupon)
       (cfg : ShippingConfig),
      (∀ i ∈ items, 0 ≤ i.price ∧ 0 ≤ i.quantity) →
      (∀ ac ∈ coupon, 0 ≤ ac.discount) →
      (checkoutTotals (checkoutSubtotal items) coupon cfg).2.2.2 =
          (checkoutTotals (checkoutSubtotal items) coupon cfg).1 +
            (checkoutTotals (checkoutSubtotal items) coupon cfg).2.1 -
            (checkoutTotals (checkoutSubtotal items) coupon cfg).2.2.1 ∧
        0 ≤ (checkoutTotals (checkoutSubtotal items) coupon cfg).2.2.1 ∧
        (checkoutTotals (checkoutSubtotal items) coupon cfg).2.2.1 ≤
          (checkoutTotals (checkoutSubtotal items) coupon cfg).1) := by
  constructor
  · intro o cfg hi hc
    have hsub : 0 ≤ (o.items.map (fun i => i.price * i.quantity)).sum := by
      refine List.sum_nonneg ?_
      intro x hx
      simp only [List.mem_map] at hx
      obtain ⟨i, hil, rfl⟩ := hx
      exact mul_nonneg (hi i hil).1 (hi i hil).2
    have hda := snapshotAmount_nonneg _ hsub o.appliedCoupon hc
    refine ⟨rfl, le_min hda hsub, min_le_right _ _, ?_⟩
    intro h
    show min (match o.appliedCoupon with
              | some ac =>
                  if ac.code ≠ "" then
                    match ac.type with
                    | CouponType.percentage =>
                        ((o.items.map (fun i => i.price * i.quantity)).sum *
                          ac.discount) / 100
                    | CouponType.fixed => ac.discount
                  else 0
              | none => 0)
          ((o.items.map (fun i => i.price * i.quantity)).sum) = 0
    rw [h]
    exact min_eq_left hsub
  · intro items coupon cfg hi hc
    have hsub : 0 ≤ checkoutSubtotal items := by
      refine List.sum_nonneg ?_
      intro x hx
      simp only [List.mem_map] at hx
      obtain ⟨i, hil, rfl⟩ := hx
      exact mul_nonneg (hi i hil).1 (hi i hil).2
    rcases hco : coupon with _ | ac
    · exact ⟨rfl, le_rfl, hsub⟩
    · have hd : 0 ≤ ac.discount := hc ac (by simp [hco])
      have hraw : 0 ≤ (match ac.type with
          | CouponType.percentage => (checkoutSubtotal items * ac.discount) / 100
          | CouponType.fixed => ac.discount) := by
        cases ac.type with
        | percentage => exact div_nonneg (mul_nonneg hsub hd) (by norm_num)
        | fixed => exact hd
      exact ⟨rfl, le_min hraw hsub, min_le_right _ _⟩

/-- When no size entry carries the label, `updateSizes` reports failure. -/
lemma updateSizes_none (label : String) (qty : ℚ) :
    ∀ l : List SizeEntry, (∀ s ∈ l, s.size ≠ label) →
      updateSizes label qty l = none := by
  intro l h
  induction l with
  | nil => rfl
  | cons a l ih =>
      rw [updateSizes, if_neg (h a (List.mem_cons_self a l)),
        ih (fun s hs => h s (List.mem_cons_of_mem a hs))]
      rfl

/-- `updateSizes` rewrites exactly the first entry carrying the label,
saturating its stock at `0`, and keeps the rest of the list. -/
lemma updateSizes_set (label : String) (qty : ℚ) :
    ∀ (l : List SizeEntry) (i : ℕ) (hi : i < l.length),
      (l.get ⟨i, hi⟩).size = label →
      (∀ s ∈ l.take i, s.size ≠ label) →
      updateSizes label qty l =
        some (l.set i { l.get ⟨i, hi⟩ with
          stock := max 0 ((l.get ⟨i, hi⟩).stock - qty) }) := by
  intro l
  induction l with
  | nil => intro i hi; exact absurd hi (by simp)
  | cons a l ih =>
      intro i hi hmatch htake
      cases i with
      | zero =>
          have hm : a.size = label := hmatch
          rw [updateSizes, if_pos hm]
          rfl
      | succ i =>
          have hne : a.size ≠ label := htake a (by simp)
          rw [updateSizes, if_neg hne]
          rw [ih i (by simpa using hi) hmatch
            (fun s hs => htake s (by simpa using List.mem_cons_of_mem a hs))]
          rfl

/-- **C5.** `updateStock` returns `false` and leaves the product unchanged
when no size entry carries the label; otherwise it reports `true`, replaces
the first matching entry's stock by `max 0 (stock − quantity)` (never
negative), keeps every other position of the size list unchanged, and
re-establishes the aggregate invariant: the new `inStock` flag is true iff
some size of the updated list has positive stock. -/
theorem updateStock_spec (p : Product) (label : String) (qty : ℚ) :
    ((∀ s ∈ p.sizes, s.size ≠ label) → p.updateStock label qty = (false, p)) ∧
    (∀ (i : ℕ) (hi : i < p.sizes.length),
      (p.sizes.get ⟨i, hi⟩).size = label →
      (∀ s ∈ p.sizes.take i, s.size ≠ label) →
      (p.updateStock label qty).1 = true ∧
      (p.updateStock label qty).2.sizes =
        p.sizes.set i { p.sizes.get ⟨i, hi⟩ with
          stock := max 0 ((p.sizes.get ⟨i, hi⟩).stock - qty) } ∧
      0 ≤ max 0 ((p.sizes.get ⟨i, hi⟩).stock - qty) ∧
      (∀ j : ℕ, j ≠ i →
        (p.updateStock label qty).2.sizes[j]? = p.sizes[j]?) ∧
      ((p.updateStock label qty).2.inStock = true ↔
        ∃ s ∈ (p.updateStock label qty).2.sizes, 0 < s.stock)) := by
  constructor
  · intro h
    simp only [Product.updateStock, updateSizes_none label qty p.sizes h]
  · intro i hi hmatch htake
    have hset := updateSizes_set label qty p.sizes i hi hmatch htake
    simp only [Product.updateStock, hset]
    refine ⟨trivial, trivial, le_max_left _ _, ?_, ?_⟩
    · intro j hj
      exact List.getElem?_set_ne (fun h => hj h.symm)
    · simp [List.any_eq_true]

/-- If the first size entry matching the label is `s`, then `updateSizes`
succeeds and the first matching entry of the updated list is `s` with its
stock saturated at `max 0 (s.stock − qty)`. -/
lemma updateSizes_find? (label : String) (qty : ℚ) :
    ∀ (l : List SizeEntry) (s : SizeEntry),
      l.find? (fun e => e.size = label) = some s →
      ∃ l', updateSizes label qty l = some l' ∧
        l'.find? (fun e => e.size = label) =
          some { s with stock := max 0 (s.stock - qty) } := by
  intro l
  induction l with
  | nil => intro s h; exact absurd h (by simp)
  | cons a l ih =>
      intro s h
      by_cases ha : a.size = label
      · have hsa : s = a := by
          rw [List.find?_cons_of_pos _ (by simpa using ha)] at h
          exact (Option.some_inj.mp h).symm
        subst hsa
        refine ⟨_, by rw [updateSizes, if_pos ha], ?_⟩
        exact List.find?_cons_of_pos _ (by simpa using ha)
      · rw [List.find?_cons_of_neg _ (by simpa using ha)] at h
        obtain ⟨l', hl', hfind⟩ := ih s h
        refine ⟨a :: l', by rw [updateSizes, if_neg ha, hl']; rfl, ?_⟩
        rw [List.find?_cons_of_neg _ (by simpa using ha)]
        exact hfind

/-- **C10.** When the requested quantity strictly exceeds the chosen size's
available stock (with at least one unit in stock), the checkout pipeline
still succeeds: `isInStock` only demands positive stock, so the per-item
check passes, the order item is snapshotted with the full requested quantity
at the size's price, and the subsequent `updateStock` saturates that size's
stock at `0`. -/
theorem checkout_overdraw_spec (p : Product) (label : String) (qty : ℚ)
    (s : SizeEntry) (hfind : p.sizes.find? (fun e => e.size = label) = some s)
    (hpos : 0 < s.stock) (hover : s.stock < qty) :
    p.isInStock label = true ∧
    processCheckoutItem p label qty =
      some { name := p.name, size := label, price := s.price,
             quantity := qty, category := p.category } ∧
    (p.updateStock label qty).1 = true ∧
    (p.updateStock label qty).2.sizes.find? (fun e => e.size = label) =
      some { s with stock := 0 } := by
  have hin : p.isInStock label = true := by
    simp only [Product.isInStock, hfind]
    exact decide_eq_true hpos
  obtain ⟨l', hl', hfind'⟩ := updateSizes_find? label qty p.sizes s hfind
  have hzero : max 0 (s.stock - qty) = 0 := max_eq_left (by linarith)
  refine ⟨hin, ?_, ?_, ?_⟩
  · simp only [processCheckoutItem, hin, if_true, hfind]
  · simp only [Product.updateStock, hl']
  · simp only [Product.updateStock, hl']
    rw [hfind', hzero]

/-- The fuelled digit extraction agrees with `Nat.digits` in base 10 once the
fuel covers the argument. -/
lemma decDigitsRev_eq (fuel n : ℕ) (h : n ≤ fuel) :
    decDigitsRev fuel n = Nat.digits 10 n := by
  induction fuel generalizing n with
  | zero =>
      have hn : n = 0 := by omega
      subst hn
      simp [decDigitsRev]
  | succ fuel ih =>
      by_cases hn : n = 0
      · subst hn
        simp [decDigitsRev]
      · have hdiv : n / 10 ≤ fuel := by
          have := Nat.div_lt_self (Nat.pos_of_ne_zero hn)
            (by norm_num : 1 < 10)
          omega
        rw [decDigitsRev, if_neg hn, ih (n / 10) hdiv,
          ← Nat.digits_def' (by norm_num : (1:ℕ) < 10) (Nat.pos_of_ne_zero hn)]

/-- For non-zero `n`, `decStr n` spells the base-10 digits of `n`, most
significant first. -/
lemma decStr_data (n : ℕ) (hn : n ≠ 0) :
    (decStr n).data =
      (Nat.digits 10 n).reverse.map (fun d => Char.ofNat (48 + d)) := by
  rw [decStr, if_neg hn, decDigitsRev_eq n n le_rfl]

/-- The length of the decimal rendering of a non-zero number. -/
lemma decStr_length (n : ℕ) (hn : n ≠ 0) :
    (decStr n).length = Nat.log 10 n + 1 := by
  show (decStr n).data.length = _
  rw [decStr_data n hn]
  simp [Nat.digits_len 10 n (by norm_num) hn]

/-- A number below `10^k` renders in at most `k` characters. -/
lemma decStr_length_le {n k : ℕ} (hk : 0 < k) (h : n < 10 ^ k) :
    (decStr n).length ≤ k := by
  by_cases hn : n = 0
  · subst hn
    show (decStr 0).data.length ≤ k
    simp only [decStr, if_pos rfl]
    exact hk
  · rw [decStr_length n hn]
    have := Nat.log_lt_of_lt_pow hn h
    omega

/-- A four-digit number renders in exactly four characters. -/
lemma decStr_length_four {y : ℕ} (h1 : 1000 ≤ y) (h2 : y ≤ 9999) :
    (decStr y).length = 4 := by
  have hy : y ≠ 0 := by omega
  rw [decStr_length y hy]
  have hl : Nat.log 10 y = 3 :=
    Nat.log_eq_of_pow_le_of_lt_pow (by norm_num; omega) (by norm_num; omega)
  omega

/-- The character of a decimal digit decodes back to it. -/
lemma digitChar_toNat {d : ℕ} (hd : d < 10) :
    (Char.ofNat (48 + d)).toNat = 48 + d := by
  interval_cases d <;> rfl

/-- The character of a decimal digit is a digit character. -/
lemma digitChar_isDigit {d : ℕ} (hd : d < 10) :
    (Char.ofNat (48 + d)).isDigit = true := by
  interval_cases d <;> decide

/-- Leading zero characters do not change the denoted value. -/
lemma charsVal_zeros (k : ℕ) (l : List Char) :
    charsVal (List.replicate k '0' ++ l) = charsVal l := by
  induction k with
  | zero => rfl
  | succ k ih =>
      rw [List.replicate_succ, List.cons_append]
      exact ih

/-- Appending one character multiplies the denoted value by 10 and adds the
character's digit value. -/
lemma charsVal_append_single (xs : List Char) (c : Char) :
    charsVal (xs ++ [c]) = 10 * charsVal xs + (c.toNat - 48) := by
  unfold charsVal
  rw [List.foldl_append]
  rfl

/-- Reading digit characters most-significant-first denotes the same number
as `Nat.ofDigits` on the little-endian digit list. -/
lemma charsVal_map_reverse :
    ∀ L : List ℕ, (∀ d ∈ L, d < 10) →
      charsVal ((L.map (fun d => Char.ofNat (48 + d))).reverse) =
        Nat.ofDigits 10 L := by
  intro L
  induction L with
  | nil => intro _; rfl
  | cons d L ih =>
      intro h
      have hsplit : ((d :: L).map (fun d => Char.ofNat (48 + d))).reverse =
          (L.map (fun d => Char.ofNat (48 + d))).reverse ++
            [Char.ofNat (48 + d)] := by
        simp
      rw [hsplit, charsVal_append_single,
        ih (fun x hx => h x (List.mem_cons_of_mem d hx)),
        digitChar_toNat (h d (List.mem_cons_self d L)), Nat.ofDigits_cons]
      omega

/-- Round trip: the decimal rendering of `n` denotes `n`. -/
lemma strVal_decStr (n : ℕ) : strVal (decStr n) = n := by
  by_cases hn : n = 0
  · subst hn
    rfl
  · unfold strVal
    rw [decStr_data n hn, List.map_reverse,
      charsVal_map_reverse _
        (fun d hd => Nat.digits_lt_base (by norm_num) hd),
      Nat.ofDigits_digits]

/-- The character data of a padded string. -/
lemma padStart_data (s : String) (w : ℕ) (c : Char) :
    (padStart s w c).data = List.replicate (w - s.length) c ++ s.data := by
  unfold padStart
  split_ifs with h
  · have hz : w - s.length = 0 := by omega
    rw [hz]
    rfl
  · rfl

/-- Padding a string of length at most `w` produces length exactly `w`. -/
lemma padStart_length (s : String) (w : ℕ) (c : Char) (h : s.length ≤ w) :
    (padStart s w c).length = w := by
  show (padStart s w c).data.length = w
  rw [padStart_data]
  have hl : s.data.length = s.length := rfl
  simp only [List.length_append, List.length_replicate]
  omega

/-- Zero padding preserves the denoted value. -/
lemma strVal_padStart (s : String) (w : ℕ) :
    strVal (padStart s w '0') = strVal s := by
  unfold strVal
  rw [padStart_data, charsVal_zeros]

/-- Every character of a decimal rendering is a digit character. -/
lemma decStr_isDigit (n : ℕ) : ∀ ch ∈ (decStr n).data, ch.isDigit = true := by
  by_cases hn : n = 0
  · subst hn
    intro ch hch
    have hdata : (decStr 0).data = ['0'] := by decide
    rw [hdata, List.mem_singleton] at hch
    subst hch
    decide
  · rw [decStr_data n hn]
    intro ch hch
    simp only [List.mem_map, List.mem_reverse] at hch
    obtain ⟨d, hd, rfl⟩ := hch
    exact digitChar_isDigit (Nat.digits_lt_base (by norm_num) hd)

/-- Zero padding preserves digit-character-ness. -/
lemma padStart_isDigit (s : String) (w : ℕ)
    (h : ∀ ch ∈ s.data, ch.isDigit = true) :
    ∀ ch ∈ (padStart s w '0').data, ch.isDigit = true := by
  rw [padStart_data]
  intro ch hch
  rcases List.mem_append.mp hch with hrep | hdata
  · rw [List.eq_of_mem_replicate hrep]
    decide
  · exact h ch hdata

/-- **C6.** For a date with a four-digit year and a same-day order count `n`
with `n + 1 ≤ 9999`, the generated order number is `"VB"` followed by four
blocks of digit characters — the 4-digit year, 2-digit zero-padded month,
2-digit zero-padded day, and 4-digit zero-padded value of `n + 1` — each
decoding back to its source number; and the pre-save hook never overwrites an
order number that is already assigned. -/
theorem orderNumber_spec (y m d n : ℕ) (o : Order)
    (hy : 1000 ≤ y) (hy' : y ≤ 9999) (hm : m ≤ 99) (hd : d ≤ 99)
    (hn : n + 1 ≤ 9999) :
    (∃ Y M D N : String,
      genOrderNumber y m d n = "VB" ++ Y ++ M ++ D ++ N ∧
      Y.length = 4 ∧ M.length = 2 ∧ D.length = 2 ∧ N.length = 4 ∧
      strVal Y = y ∧ strVal M = m ∧ strVal D = d ∧ strVal N = n + 1 ∧
      (∀ ch ∈ Y.data ++ M.data ++ D.data ++ N.data, ch.isDigit = true)) ∧
    (o.orderNumber ≠ "" → preSaveOrderNumber o y m d n = o) := by
  constructor
  · refine ⟨decStr y, padStart (decStr m) 2 '0', padStart (decStr d) 2 '0',
      padStart (decStr (n + 1)) 4 '0', rfl, decStr_length_four hy hy',
      ?_, ?_, ?_, strVal_decStr y, ?_, ?_, ?_, ?_⟩
    · refine padStart_length _ _ _ (decStr_length_le (by norm_num) ?_)
      have : (10:ℕ) ^ 2 = 100 := by norm_num
      omega
    · refine padStart_length _ _ _ (decStr_length_le (by norm_num) ?_)
      have : (10:ℕ) ^ 2 = 100 := by norm_num
      omega
    · refine padStart_length _ _ _ (decStr_length_le (by norm_num) ?_)
      have : (10:ℕ) ^ 4 = 10000 := by norm_num
      omega
    · rw [strVal_padStart]; exact strVal_decStr m
    · rw [strVal_padStart]; exact strVal_decStr d
    · rw [strVal_padStart]; exact strVal_decStr (n + 1)
    · intro ch hch
      have hY := decStr_isDigit y
      have hM := padStart_isDigit (decStr m) 2 (decStr_isDigit m)
      have hD := padStart_isDigit (decStr d) 2 (decStr_isDigit d)
      have hN := padStart_isDigit (decStr (n + 1)) 4 (decStr_isDigit (n + 1))
      rcases List.mem_append.mp hch with h1 | h4
      · rcases List.mem_append.mp h1 with h2 | h3
        · rcases List.mem_append.mp h2 with h5 | h6
          · exact hY ch h5
          · exact hM ch h6
        · exact hD ch h3
      · exact hN ch h4
  · intro h
    unfold preSaveOrderNumber
    rw [if_neg h]

/-! ## Concrete witnesses -/

/-- The development/production shipping configuration of `config.js`:
flat fee 49, free shipping at or above 500. -/
def cfgDefault : ShippingConfig := { freeShippingThreshold := 500, shippingFee := 49 }

/-- An order carrying a pending cancellation request. -/
def orderCancelRequested : Order :=
  { orderPending with cancelRequest := some ⟨3, "changed_mind", "", .pending, none, none⟩ }

/-- The state of `orderCancelRequested` after an approved cancellation. -/
def orderCancelProcessed : Order :=
  { orderCancelRequested with
      orderStatus := .cancelled, paymentStatus := .refunded,
      cancelRequest := some ⟨3, "changed_mind", "", .approved, some 7, some "admin1"⟩ }

/-- Witness for the totals invariant on the sample pending order under the
default shipping configuration. -/
theorem totals_invariant_witness :
    (orderPending.calculateTotals cfgDefault).total =
        (orderPending.calculateTotals cfgDefault).subtotal +
          (orderPending.calculateTotals cfgDefault).shippingCost -
          (orderPending.calculateTotals cfgDefault).discount ∧
      0 ≤ (orderPending.calculateTotals cfgDefault).discount ∧
      (orderPending.calculateTotals cfgDefault).discount ≤
        (orderPending.calculateTotals cfgDefault).subtotal ∧
      (orderPending.appliedCoupon = none →
        (orderPending.calculateTotals cfgDefault).discount = 0) :=
  totals_invariant.1 orderPending cfgDefault
    (by intro i hi
        simp only [orderPending, List.mem_singleton] at hi
        subst hi
        exact ⟨by norm_num, by norm_num⟩)
    (by intro ac hac
        simp [orderPending] at hac)

/-- Witness for the amended discount bounds on the uncapped sample coupon. -/
theorem calculateDiscount_bounds_witness :
    0 ≤ couponUncapped.calculateDiscount 100 [] ∧
    couponUncapped.calculateDiscount 100 [] ≤
      discountableBase couponUncapped 100 [] :=
  (calculateDiscount_bounds couponUncapped 100 []
      (by norm_num [couponUncapped]) (by norm_num)
      (by intro i hi; exact absurd hi (List.not_mem_nil i))).1 rfl

/-- Witness for the amended `canBeApplied` characterisation: the allow-listed
user is accepted. -/
theorem canBeApplied_iff_witness :
    couponAllowList.canBeApplied 5 300 (some "u1") false = true :=
  (canBeApplied_iff couponAllowList 5 300 (some "u1") false).mpr
    ⟨⟨rfl, by norm_num [couponAllowList], by norm_num [couponAllowList],
       Or.inl rfl⟩,
     by norm_num [couponAllowList],
     Or.inl rfl,
     (by intro u hu
         cases hu
         simp [couponAllowList]),
     Or.inr (Or.inr ⟨"u1", rfl, by simp [couponAllowList]⟩)⟩

/-- Witness for `updateStock` on the one-unit product: the decrement by 5
succeeds and re-establishes the aggregate in-stock invariant. -/
theorem updateStock_spec_witness :
    (productOneLeft.updateStock "100g" 5).1 = true ∧
    ((productOneLeft.updateStock "100g" 5).2.inStock = true ↔
      ∃ s ∈ (productOneLeft.updateStock "100g" 5).2.sizes, 0 < s.stock) := by
  have h := (updateStock_spec productOneLeft "100g" 5).2 0
    (by norm_num [productOneLeft]) rfl
    (by intro s hs; exact absurd hs (List.not_mem_nil s))
  exact ⟨h.1, h.2.2.2.2⟩

/-- Witness for the order-number format at the spec's own example date
(`VB202504170007`: 17 April 2025, seventh order of the day). -/
theorem orderNumber_spec_witness :
    (∃ Y M D N : String,
      genOrderNumber 2025 4 17 6 = "VB" ++ Y ++ M ++ D ++ N ∧
      Y.length = 4 ∧ M.length = 2 ∧ D.length = 2 ∧ N.length = 4 ∧
      strVal Y = 2025 ∧ strVal M = 4 ∧ strVal D = 17 ∧ strVal N = 7 ∧
      (∀ ch ∈ Y.data ++ M.data ++ D.data ++ N.data, ch.isDigit = true)) ∧
    preSaveOrderNumber orderPending 2025 4 17 6 = orderPending := by
  have h := orderNumber_spec 2025 4 17 6 orderPending (by norm_num)
    (by norm_num) (by norm_num) (by norm_num) (by norm_num)
  exact ⟨h.1, h.2 (by decide)⟩

/-- Witness for `requestCancellation`: a pending order succeeds, a shipped
order is rejected with the domain error. -/
theorem requestCancellation_spec_witness :
    orderPending.requestCancellation 5 "changed_mind" "" =
      .ok { orderPending with cancelRequest := some ⟨5, "changed_mind", "", .pending, none, none⟩ } ∧
    orderShipped.requestCancellation 5 "changed_mind" "" =
      .error "Order cannot be cancelled at this stage" :=
  ⟨(requestCancellation_spec orderPending 5 "changed_mind" "").1 (Or.inl rfl),
   (requestCancellation_spec orderShipped 5 "changed_mind" "").2 (by decide)⟩

/-- Witness for `processCancelRequest`: approving the sample request yields
the cancelled/refunded order, and a second call fails; an order without a
request fails immediately. -/
theorem processCancelRequest_spec_witness :
    orderCancelRequested.processCancelRequest 7 true "admin1" "" =
      .ok orderCancelProcessed ∧
    orderCancelProcessed.processCancelRequest 8 true "admin1" "" =
      .error "No pending cancellation request found" ∧
    orderPending.processCancelRequest 7 true "admin1" "" =
      .error "No pending cancellation request found" := by
  obtain ⟨o', h1, hcr, happ, -, hsec⟩ :=
    (processCancelRequest_spec orderCancelRequested 7 true "admin1" "").2
      ⟨3, "changed_mind", "", .pending, none, none⟩ rfl rfl
  have ho : orderCancelRequested.processCancelRequest 7 true "admin1" "" =
      .ok orderCancelProcessed := rfl
  have ho' : o' = orderCancelProcessed := by
    rw [ho] at h1
    exact (Except.ok.inj h1.symm)
  refine ⟨ho, ho' ▸ hsec 8 true "admin1" "", ?_⟩
  exact (processCancelRequest_spec orderPending 7 true "admin1" "").1
    (Or.inl rfl)

/-- Witness for the checkout overdraw: one unit in stock, five requested —
the check passes, the item is snapshotted at quantity 5, and the stock
saturates at 0. -/
theorem checkout_overdraw_spec_witness :
    productOneLeft.isInStock "100g" = true ∧
    processCheckoutItem productOneLeft "100g" 5 =
      some { name := "Peri Peri Makhana", size := "100g", price := 99,
             quantity := 5, category := "Makhana" } ∧
    (productOneLeft.updateStock "100g" 5).1 = true ∧
    (productOneLeft.updateStock "100g" 5).2.sizes.find?
        (fun e => e.size = "100g") =
      some { size := "100g", price := 99, stock := 0 } := by
  have h := checkout_overdraw_spec productOneLeft "100g" 5 ⟨"100g", 99, 1⟩
    rfl (by norm_num) (by norm_num)
  exact ⟨h.1, h.2.1, h.2.2.1, h.2.2.2⟩

end VibeBites
